import Mathlib

/-!
Verification of the text-to-speech batch converter core
(conversion-retry state machine, WAV encoding, concat / timed audio merge).

The definitions below are a shallow embedding of the TypeScript source:
`utils/audioUtils.ts` (`decode`, `pcmToWavBlob`) and `App.tsx`
(`convertLineWithRetries`, `handleRetryLine`, `handleBatchConvert`,
`handleDownloadConcatMerged`, `handleDownloadSrtMerged`).
Byte buffers (`Uint8Array`, `ArrayBuffer` + `DataView`) are modelled as
`List ℕ` of byte values; `DataView.setUintN(_, v, true)` little-endian
writes are modelled by `u16le` / `u32le` together with `writeBytesAt`.
-/

namespace TtsApp

/-! ## Byte-buffer primitives (`Uint8Array.set`, `DataView` writes) -/

/-- Write the bytes `src` into the buffer `l` starting at index `off`,
one byte at a time (models `Uint8Array.set(src, off)` and consecutive
`DataView.setUint8` writes). -/
def writeBytesAt : List ℕ → ℕ → List ℕ → List ℕ
  | l, _, [] => l
  | l, off, b :: bs => writeBytesAt (l.set off b) (off + 1) bs

/-- Little-endian byte serialization of a 16-bit write
(`DataView.setUint16(_, v, true)`; the value is truncated to 16 bits). -/
def u16le (v : ℕ) : List ℕ := [v % 256, v / 256 % 256]

/-- Little-endian byte serialization of a 32-bit write
(`DataView.setUint32(_, v, true)`; the value is truncated to 32 bits,
which the per-byte `v / 256 ^ i % 256` extraction already realizes). -/
def u32le (v : ℕ) : List ℕ := [v % 256, v / 256 % 256, v / 65536 % 256, v / 16777216 % 256]

/-- The char-code bytes of a string (models `writeString`, which stores
`str.charCodeAt(i)` for each position of an ASCII tag). -/
def strCodes (s : String) : List ℕ := s.data.map Char.toNat

theorem length_writeBytesAt (src : List ℕ) : ∀ (l : List ℕ) (off : ℕ),
    (writeBytesAt l off src).length = l.length := by
  induction src with
  | nil => intro l off; rfl
  | cons b bs ih => intro l off; rw [writeBytesAt, ih, List.length_set]

theorem writeBytesAt_cons (c : ℕ) (src : List ℕ) : ∀ (t : List ℕ) (off : ℕ),
    writeBytesAt (c :: t) (off + 1) src = c :: writeBytesAt t off src := by
  induction src with
  | nil => intro t off; rfl
  | cons b bs ih =>
    intro t off
    show writeBytesAt ((c :: t).set (off + 1) b) (off + 1 + 1) bs
        = c :: writeBytesAt (t.set off b) (off + 1) bs
    rw [List.set_cons_succ, ih]

theorem writeBytesAt_zero (src : List ℕ) : ∀ (l : List ℕ),
    src.length ≤ l.length →
    writeBytesAt l 0 src = src ++ l.drop src.length := by
  induction src with
  | nil => intro l _; simp [writeBytesAt]
  | cons b bs ih =>
    intro l h
    match l with
    | [] => simp at h
    | c :: t =>
      show writeBytesAt ((c :: t).set 0 b) 1 bs = (b :: bs) ++ (c :: t).drop (bs.length + 1)
      rw [List.set_cons_zero]
      show writeBytesAt (b :: t) (0 + 1) bs = (b :: bs) ++ (c :: t).drop (bs.length + 1)
      rw [writeBytesAt_cons, ih t (by simpa using h)]
      simp

theorem writeBytesAt_eq : ∀ (off : ℕ) (l : List ℕ) (src : List ℕ),
    off + src.length ≤ l.length →
    writeBytesAt l off src = l.take off ++ src ++ l.drop (off + src.length) := by
  intro off
  induction off with
  | zero =>
    intro l src h
    simpa using writeBytesAt_zero src l (by simpa using h)
  | succ off ih =>
    intro l src h
    match l with
    | [] => simp at h
    | c :: t =>
      rw [writeBytesAt_cons, ih t src (by simp at h; omega)]
      have hh : off + 1 + src.length = (off + src.length) + 1 := by omega
      rw [hh]
      simp

theorem writeBytesAt_merge (l : List ℕ) (off k : ℕ) (xs ys : List ℕ) (h : k = off + xs.length) :
    writeBytesAt (writeBytesAt l off xs) k ys = writeBytesAt l off (xs ++ ys) := by
  subst h
  induction xs generalizing l off with
  | nil => simp [writeBytesAt]
  | cons b bs ih =>
    show writeBytesAt (writeBytesAt (l.set off b) (off + 1) bs) (off + (bs.length + 1)) ys
        = writeBytesAt (l.set off b) (off + 1) (bs ++ ys)
    have hh : off + (bs.length + 1) = (off + 1) + bs.length := by omega
    rw [hh, ih]

/-! ## WAV encoder (`pcmToWavBlob` from `utils/audioUtils.ts`) -/

/-- `const sampleRate = 24000`. -/
def sampleRate : ℕ := 24000

/-- `const numChannels = 1`. -/
def numChannels : ℕ := 1

/-- `const bitsPerSample = 16`. -/
def bitsPerSample : ℕ := 16

/-- `const bytesPerSample = bitsPerSample / 8`. -/
def bytesPerSample : ℕ := bitsPerSample / 8

/-- `const blockAlign = numChannels * bytesPerSample`. -/
def blockAlign : ℕ := numChannels * bytesPerSample

/-- `const byteRate = sampleRate * blockAlign`. -/
def byteRate : ℕ := sampleRate * blockAlign

/-- Shallow embedding of `pcmToWavBlob`: allocate a zero buffer of
`44 + dataSize` bytes, perform the thirteen header writes at their
source offsets, then copy the PCM payload at offset 44
(`new Uint8Array(buffer).set(pcmData, 44)`). -/
def pcmToWavBlob (pcmData : List ℕ) : List ℕ :=
  let dataSize := pcmData.length
  let buffer := List.replicate (44 + dataSize) 0
  let v1 := writeBytesAt buffer 0 (strCodes ("RIFF"))
  let v2 := writeBytesAt v1 4 (u32le (36 + dataSize))
  let v3 := writeBytesAt v2 8 (strCodes ("WAVE"))
  let v4 := writeBytesAt v3 12 (strCodes ("fmt "))
  let v5 := writeBytesAt v4 16 (u32le 16)
  let v6 := writeBytesAt v5 20 (u16le 1)
  let v7 := writeBytesAt v6 22 (u16le numChannels)
  let v8 := writeBytesAt v7 24 (u32le sampleRate)
  let v9 := writeBytesAt v8 28 (u32le byteRate)
  let v10 := writeBytesAt v9 32 (u16le blockAlign)
  let v11 := writeBytesAt v10 34 (u16le bitsPerSample)
  let v12 := writeBytesAt v11 36 (strCodes ("data"))
  let v13 := writeBytesAt v12 40 (u32le dataSize)
  writeBytesAt v13 44 pcmData

/-- The 44-byte header layout stated by the specification, as explicit
little-endian byte fields. -/
def wavHeaderBytes (n : ℕ) : List ℕ :=
  strCodes ("RIFF") ++ u32le (36 + n) ++ strCodes ("WAVE") ++ strCodes ("fmt ") ++
    u32le 16 ++ u16le 1 ++ u16le 1 ++ u32le 24000 ++ u32le 48000 ++ u16le 2 ++
    u16le 16 ++ strCodes ("data") ++ u32le n

@[simp] theorem length_u32le (v : ℕ) : (u32le v).length = 4 := rfl

@[simp] theorem length_u16le (v : ℕ) : (u16le v).length = 2 := rfl

@[simp] theorem length_strCodes_RIFF : (strCodes ("RIFF")).length = 4 := rfl

@[simp] theorem length_strCodes_WAVE : (strCodes ("WAVE")).length = 4 := rfl

@[simp] theorem length_strCodes_fmt : (strCodes ("fmt ")).length = 4 := rfl

@[simp] theorem length_strCodes_data : (strCodes ("data")).length = 4 := rfl

@[simp] theorem length_wavHeaderBytes (n : ℕ) : (wavHeaderBytes n).length = 44 := by
  simp [wavHeaderBytes]

theorem writeBytesAt_replicate_full (src : List ℕ) (n : ℕ) (h : src.length = n) :
    writeBytesAt (List.replicate n 0) 0 src = src := by
  subst h
  rw [writeBytesAt_zero src _ (by simp)]
  simp

/-- The complete output of the WAV encoder: the 44 header bytes followed by
the unchanged PCM payload. -/
theorem pcmToWav_eq (pcm : List ℕ) :
    pcmToWavBlob pcm = wavHeaderBytes pcm.length ++ pcm := by
  simp only [pcmToWavBlob, writeBytesAt_merge, List.length_append,
    length_u32le, length_u16le, length_strCodes_RIFF, length_strCodes_WAVE,
    length_strCodes_fmt, length_strCodes_data]
  simp only [writeBytesAt_replicate_full, List.length_append,
    length_u32le, length_u16le, length_strCodes_RIFF, length_strCodes_WAVE,
    length_strCodes_fmt, length_strCodes_data]
  simp [wavHeaderBytes, numChannels, sampleRate, byteRate, blockAlign,
    bitsPerSample, bytesPerSample]

theorem length_pcmToWav (pcm : List ℕ) :
    (pcmToWavBlob pcm).length = 44 + pcm.length := by
  rw [pcmToWav_eq]
  simp

/-- C4: for every PCM byte sequence, the WAV encoder outputs exactly
`44 + len(pcm)` bytes: a 44-byte header with all multi-byte integer fields
little-endian — RIFF, chunkSize = 36 + dataSize (u32), WAVE, "fmt ",
subchunk1Size = 16 (u32), audioFormat = 1 (u16), numChannels = 1 (u16),
sampleRate = 24000 (u32), byteRate = 48000 (u32), blockAlign = 2 (u16),
bitsPerSample = 16 (u16), "data", dataSize = len(pcm) (u32) — followed by
the PCM bytes unchanged. -/
theorem c4_wav_layout (pcm : List ℕ) :
    pcmToWavBlob pcm =
      (strCodes ("RIFF") ++ u32le (36 + pcm.length) ++ strCodes ("WAVE") ++
        strCodes ("fmt ") ++ u32le 16 ++ u16le 1 ++ u16le 1 ++ u32le 24000 ++
        u32le 48000 ++ u16le 2 ++ u16le 16 ++ strCodes ("data") ++
        u32le pcm.length) ++ pcm ∧
    (pcmToWavBlob pcm).length = 44 + pcm.length := by
  refine ⟨?_, length_pcmToWav pcm⟩
  rw [pcmToWav_eq]
  simp [wavHeaderBytes]

/-! ## PCM payload decoding (`decode` from `utils/audioUtils.ts`) -/

/-- The 6-bit value of one base64 alphabet character, as used by `atob`. -/
def b64Val (c : Char) : ℕ :=
  if ('A' ≤ c ∧ c ≤ 'Z') then c.toNat - 65
  else if ('a' ≤ c ∧ c ≤ 'z') then c.toNat - 71
  else if ('0' ≤ c ∧ c ≤ '9') then c.toNat + 4
  else if c = '+' then 62
  else if c = '/' then 63
  else 0

/-- Base64 groups-of-four to groups-of-three-bytes decoding (the byte
values `atob` produces, read off by `charCodeAt` in `decode`). -/
def b64Chunks : List Char → List ℕ
  | a :: b :: c :: d :: rest =>
    let n := b64Val a * 262144 + b64Val b * 4096 + b64Val c * 64 + b64Val d
    n / 65536 % 256 :: n / 256 % 256 :: n % 256 :: b64Chunks rest
  | [a, b, c] =>
    let n := b64Val a * 4096 + b64Val b * 64 + b64Val c
    [n / 1024 % 256, n / 4 % 256]
  | [a, b] =>
    let n := b64Val a * 64 + b64Val b
    [n / 16 % 256]
  | _ => []

/-- `decode(base64)`: `atob` the transport payload and store the char code of
every position into a byte array (`bytes[i] = binaryString.charCodeAt(i)`).
Padding characters carry no payload bits and are skipped. -/
def decode (base64 : String) : List ℕ :=
  b64Chunks (base64.data.filter (fun c => c != '='))

/-- The "data subchunk" of an encoded WAV byte sequence: everything after
the 44-byte header (spec §4.5 layout). -/
def data_subchunk (w : List ℕ) : List ℕ := w.drop 44

/-- C9 counterexample: at the PCM byte sequence X = [], the data subchunk of
WavEncoder(X) is the empty payload and decoding the empty payload yields [],
yet applying WavEncoder to that decode result gives the 44-byte header — not
X. So `WavEncoder(decode(WavEncoder(X).data_subchunk)) == X` fails at X = []. -/
theorem c9_roundtrip_counterexample :
    data_subchunk (pcmToWavBlob []) = ([] : List ℕ) ∧
    decode ("") = ([] : List ℕ) ∧
    pcmToWavBlob (decode ("")) ≠ ([] : List ℕ) := by decide

/-- C9 (amended): the data subchunk of WavEncoder(X) is X itself — the decode
of WavEncoder(X).data_subchunk is byte-for-byte X, without re-encoding — and
the header's dataSize field (bytes 40..43) is the little-endian u32 of len(X). -/
theorem c9_amended_roundtrip (X : List ℕ) :
    data_subchunk (pcmToWavBlob X) = X ∧
    ((pcmToWavBlob X).drop 40).take 4 = u32le X.length := by
  constructor
  · rw [data_subchunk, pcmToWav_eq,
      show (44 : ℕ) = (wavHeaderBytes X.length).length from (length_wavHeaderBytes X.length).symm,
      List.drop_left]
  · rw [pcmToWav_eq]
    have hsplit : wavHeaderBytes X.length ++ X =
        (strCodes ("RIFF") ++ u32le (36 + X.length) ++ strCodes ("WAVE") ++
          strCodes ("fmt ") ++ u32le 16 ++ u16le 1 ++ u16le 1 ++ u32le 24000 ++
          u32le 48000 ++ u16le 2 ++ u16le 16 ++ strCodes ("data")) ++
        (u32le X.length ++ X) := by
      simp [wavHeaderBytes]
    rw [hsplit]
    have hlen : (strCodes ("RIFF") ++ u32le (36 + X.length) ++ strCodes ("WAVE") ++
        strCodes ("fmt ") ++ u32le 16 ++ u16le 1 ++ u16le 1 ++ u32le 24000 ++
        u32le 48000 ++ u16le 2 ++ u16le 16 ++ strCodes ("data")).length = 40 := by
      simp
    rw [show (40 : ℕ) = (strCodes ("RIFF") ++ u32le (36 + X.length) ++ strCodes ("WAVE") ++
        strCodes ("fmt ") ++ u32le 16 ++ u16le 1 ++ u16le 1 ++ u32le 24000 ++
        u32le 48000 ++ u16le 2 ++ u16le 16 ++ strCodes ("data")).length from hlen.symm,
      List.drop_left,
      show (4 : ℕ) = (u32le X.length).length from rfl,
      List.take_left]

/-! ## Data model (`App.tsx` types) -/

/-- `type LineStatus = 'pending' | 'converting' | 'done' | 'error'`. -/
inductive LineStatus where
  | pending
  | converting
  | done
  | error
deriving DecidableEq, Repr

/-- `type FileStatus = 'pending' | 'converting' | 'done' | 'error'`. -/
inductive FileStatus where
  | pending
  | converting
  | done
  | error
deriving DecidableEq, Repr

/-- `interface ParsedLine` — one line record of a file batch. -/
structure Line where
  id : String
  text : String
  status : LineStatus
  audioData : Option String := none
  error : Option String := none
  startTimeMs : Option ℕ := none
  endTimeMs : Option ℕ := none
deriving DecidableEq, Repr

/-- `interface FileState` — one uploaded file and its parsed lines.
UI-only fields (`file`, `isZipping`) are not modelled. -/
structure FileBatch where
  id : String
  name : String
  status : FileStatus
  lines : List Line
  isMerging : Bool := false
deriving DecidableEq, Repr

/-- JS truthiness of `line.audioData`: present and non-empty. -/
def hasAudio (l : Line) : Bool :=
  match l.audioData with
  | none => false
  | some s => !s.isEmpty

/-- List-level string prefix test (used by the substring test below). -/
def isPrefixL : List Char → List Char → Bool
  | [], _ => true
  | _ :: _, [] => false
  | a :: as, b :: bs => a == b && isPrefixL as bs

/-- Contiguous-substring occurrence test on char lists. -/
def hasInfixL (needle : List Char) : List Char → Bool
  | [] => needle.isEmpty
  | c :: rest => isPrefixL needle (c :: rest) || hasInfixL needle rest

/-- `hay.includes(pat)` — the substring test used to classify synthesis
errors (`err.message.includes('Content blocked')`). -/
def includesStr (hay pat : String) : Bool := hasInfixL pat.data hay.data

/-! ## Line conversion engine (`convertLineWithRetries`) -/

/-- Outcome of one `textToSpeech` collaborator call: the resolved base64
audio payload, or the thrown error's message (the service folds
moderation blocks, empty responses and transport failures into messages;
a moderation block's message contains the substring "Content blocked"). -/
inductive SynthOutcome where
  | ok (audio : String)
  | err (msg : String)
deriving DecidableEq, Repr

/-- The environment a conversion run executes in: the voice-prompt setting
and the two collaborators. `synth` is indexed by line id and attempt
number so distinct attempts and distinct lines may behave differently;
`rewrite` returns `none` when the rewrite collaborator throws. -/
structure ConvEnv where
  voicePrompt : String
  synth : String → ℕ → String → SynthOutcome
  rewrite : String → String → Option String

/-- `constructApiText`: prepend the voice prompt if non-empty. -/
def constructApiText (voicePrompt baseText : String) : String :=
  if voicePrompt.isEmpty then baseText else voicePrompt ++ (" ") ++ baseText

/-- `const RETRY_ATTEMPTS = 5`. -/
def RETRY_ATTEMPTS : ℕ := 5

/-- One observable collaborator call made during a conversion run. -/
inductive Call where
  | synthC (outcome : SynthOutcome)
  | rewC (result : Option String)
deriving DecidableEq, Repr

/-- The retry loop of `convertLineWithRetries` (`for attempt = 1..5`).
`fuel` counts the loop iterations still available (the loop guard
`attempt <= RETRY_ATTEMPTS`); `attempt` is the source loop counter;
`l` is the line record as currently published; `textToProcess` and
`hasBeenRewritten` are the loop's local state. Returns the final line
record, the list of collaborator calls made, and the list of statuses
carried by each published record replacement, in order. -/
def runLoop (env : ConvEnv) (lid : String) :
    ℕ → ℕ → Line → String → Bool → Line × List Call × List LineStatus
  | 0, _, l, _, _ => (l, [], [])
  | fuel + 1, attempt, l, textToProcess, hasBeenRewritten =>
    let textToSend := constructApiText env.voicePrompt textToProcess
    match env.synth lid attempt textToSend with
    | .ok audioData =>
      ({ l with status := .done, audioData := some audioData, text := textToProcess },
        [Call.synthC (.ok audioData)], [LineStatus.done])
    | .err msg =>
      if includesStr msg ("Content blocked") && !hasBeenRewritten then
        let l1 := { l with error := some ("Content blocked. Attempting to rewrite...") }
        match env.rewrite lid textToProcess with
        | some rewrittenText =>
          let l2 := { l1 with text := rewrittenText, error := none }
          let r := runLoop env lid fuel (attempt + 1) l2 rewrittenText true
          (r.1, Call.synthC (.err msg) :: Call.rewC (some rewrittenText) :: r.2.1,
            l1.status :: l2.status :: r.2.2)
        | none =>
          if attempt < RETRY_ATTEMPTS then
            let r := runLoop env lid fuel (attempt + 1) l1 textToProcess true
            (r.1, Call.synthC (.err msg) :: Call.rewC none :: r.2.1, l1.status :: r.2.2)
          else
            let finalError := ("The rewritten text was also blocked or failed. Last error: ") ++ msg
            let l2 := { l1 with status := .error, error := some finalError, text := textToProcess }
            (l2, [Call.synthC (.err msg), Call.rewC none], [l1.status, LineStatus.error])
      else
        if attempt < RETRY_ATTEMPTS then
          let r := runLoop env lid fuel (attempt + 1) l textToProcess hasBeenRewritten
          (r.1, Call.synthC (.err msg) :: r.2.1, r.2.2)
        else
          let finalError :=
            if hasBeenRewritten then
              ("The rewritten text was also blocked or failed. Last error: ") ++ msg
            else msg
          ({ l with status := .error, error := some finalError, text := textToProcess },
            [Call.synthC (.err msg)], [LineStatus.error])

/-- `convertLineWithRetries(fileId, line)`: publish the record with
status `converting` and `error` cleared, then run the retry loop with
the line's text and an unset rewrite flag. -/
def convertLine (env : ConvEnv) (l : Line) : Line × List Call × List LineStatus :=
  let l1 := { l with status := LineStatus.converting, error := none }
  let r := runLoop env l.id RETRY_ATTEMPTS 1 l1 l.text false
  (r.1, r.2.1, LineStatus.converting :: r.2.2)

/-! ## Batch scheduler (`handleBatchConvert`, `handleRetryLine`) and the
reachable batch states -/

/-- One parsed input record as produced by the upstream parser
(`parseSrt` / `parseTxt`): id, text and optional subtitle timing. -/
structure ParsedInput where
  id : String
  text : String
  startTimeMs : Option ℕ := none
  endTimeMs : Option ℕ := none
deriving DecidableEq, Repr

/-- `lines: parsed.map(line => ({ ...line, status: 'pending' }))`. -/
def mkLine (p : ParsedInput) : Line :=
  { id := p.id, text := p.text, status := .pending, audioData := none, error := none,
    startTimeMs := p.startTimeMs, endTimeMs := p.endTimeMs }

/-- A freshly uploaded `FileState`: parsed lines, all `pending`. -/
def mkBatch (fid name : String) (parsed : List ParsedInput) : FileBatch :=
  { id := fid, name := name, status := .pending, lines := parsed.map mkLine,
    isMerging := false }

/-- `handleBatchConvert`: set the file status to `converting`, run every
line's conversion concurrently (the runs touch disjoint line records, so
the aggregate state equals the per-line map), await all of them, then set
the file status to `done` unconditionally. Besides the updated batch this
returns, for each line, its status before the run and the statuses the run
published, for transition analysis. -/
def batchConvert (env : ConvEnv) (b : FileBatch) :
    FileBatch × List (LineStatus × List LineStatus) :=
  let results := b.lines.map (fun l => (l.status, convertLine env l))
  ({ b with status := FileStatus.done, lines := results.map (fun p => p.2.1) },
    results.map (fun p => (p.1, p.2.2.2)))

/-- `handleRetryLine`: find the line, rerun `convertLineWithRetries` on it,
then set the file status to `done` if every line is now terminal. The retry
control is only rendered for lines whose status is `error` (App.tsx:285),
so the operation applies only to errored lines. -/
def retryLine (env : ConvEnv) (lid : String) (b : FileBatch) :
    FileBatch × List (LineStatus × List LineStatus) :=
  match b.lines.find? (fun l => l.id == lid) with
  | none => (b, [])
  | some l =>
    if l.status = LineStatus.error then
      let r := convertLine env l
      let lines1 := b.lines.map (fun x => if x.id == lid then r.1 else x)
      let doneCount := lines1.countP (fun x => x.status == LineStatus.done)
      let errorCount := lines1.countP (fun x => x.status == LineStatus.error)
      let b1 :=
        if doneCount + errorCount == lines1.length then
          { b with lines := lines1, status := FileStatus.done }
        else { b with lines := lines1 }
      (b1, [(l.status, r.2.2)])
    else (b, [])

/-- The externally triggerable operations on one batch. -/
inductive Op where
  | convertOp (env : ConvEnv)
  | retryOp (env : ConvEnv) (lid : String)

/-- Apply one operation. The Start-Conversion control is rendered only
while the batch is unfinished and is locked during conversion, so batch
conversion applies to `pending` batches. -/
def applyOp (b : FileBatch) : Op → FileBatch × List (LineStatus × List LineStatus)
  | .convertOp env =>
    if b.status = FileStatus.pending then batchConvert env b else (b, [])
  | .retryOp env lid => retryLine env lid b

/-- Batch states reachable from a freshly parsed upload by applying
operations. -/
inductive Reach : FileBatch → Prop where
  | init : ∀ (fid name : String) (parsed : List ParsedInput), Reach (mkBatch fid name parsed)
  | step : ∀ (b : FileBatch) (op : Op), Reach b → Reach (applyOp b op).1

/-! ## Claim-side observables: collaborator call budgets and status
transitions -/

def isSynthCall : Call → Bool
  | .synthC _ => true
  | .rewC _ => false

def isRewCall : Call → Bool
  | .synthC _ => false
  | .rewC _ => true

/-- Whether a call is a synthesis failure classified as ContentBlocked
(the source classifies by `err.message.includes('Content blocked')`). -/
def isBlockedFailure : Call → Bool
  | .synthC (.err m) => includesStr m ("Content blocked")
  | _ => false

/-- Scan a call sequence and check that every rewrite call happens when no
rewrite has been seen yet and immediately after a synthesis failure
classified as ContentBlocked. `seen` is whether a rewrite occurred before
the current position; `prev` is the immediately preceding call. -/
def rewScan : Bool → Option Call → List Call → Bool
  | _, _, [] => true
  | seen, prev, c :: rest =>
    (if isRewCall c then
      (!seen && (match prev with | some p => isBlockedFailure p | none => false))
     else true)
    && rewScan (seen || isRewCall c) (some c) rest

/-- The collaborator calls made by one invocation of the line conversion
run on a line. -/
def callsOf (env : ConvEnv) (l : Line) : List Call := (convertLine env l).2.1

/-- The status-transition relation stated by the claim: a line status only
moves Pending → Converting → Done or Error (and writing `converting` over
`converting` is a no-op, not a new transition). -/
def claimAllowed : LineStatus → LineStatus → Bool
  | .pending, .converting => true
  | .converting, .converting => true
  | .converting, .done => true
  | .converting, .error => true
  | _, _ => false

/-- The amended transition relation: the claim's transitions plus
Error → Converting, which re-running the engine on an errored line (the
per-line retry) performs. -/
def retryAllowed (s t : LineStatus) : Bool :=
  claimAllowed s t || (s == LineStatus.error && t == LineStatus.converting)

/-- Check every consecutive pair of a status-write sequence against an
allowed-transition relation, starting from the status before the first
write; writing the current value again is a no-op and always fine. -/
def transOk (allowed : LineStatus → LineStatus → Bool) : LineStatus → List LineStatus → Bool
  | _, [] => true
  | prev, s :: rest => (prev == s || allowed prev s) && transOk allowed s rest

theorem rewScan_of_no_rew : ∀ (cs : List Call), cs.countP isRewCall = 0 →
    ∀ (seen : Bool) (prev : Option Call), rewScan seen prev cs = true := by
  intro cs
  induction cs with
  | nil => intro _ seen prev; rfl
  | cons c rest ih =>
    intro h seen prev
    rw [List.countP_cons] at h
    have hc : isRewCall c = false := by
      cases hc' : isRewCall c
      · rfl
      · rw [hc'] at h; simp at h
    rw [hc] at h
    simp only [Bool.false_eq_true, if_false, Nat.add_zero] at h
    simp [rewScan, hc, ih h]

theorem runLoop_calls_spec (env : ConvEnv) (lid : String) :
    ∀ (fuel attempt : ℕ) (l : Line) (text : String) (rw : Bool),
    ((runLoop env lid fuel attempt l text rw).2.1).countP isSynthCall ≤ fuel ∧
    ((runLoop env lid fuel attempt l text rw).2.1).countP isRewCall ≤ (if rw then 0 else 1) ∧
    (rw = false → ∀ (prev : Option Call),
      rewScan false prev (runLoop env lid fuel attempt l text rw).2.1 = true) := by
  intro fuel
  induction fuel with
  | zero =>
    intro attempt l text rw
    refine ⟨by simp [runLoop], by simp [runLoop], ?_⟩
    intro _ prev
    simp [runLoop, rewScan]
  | succ fuel ih =>
    intro attempt l text rw
    simp only [runLoop]
    cases hs : env.synth lid attempt (constructApiText env.voicePrompt text) with
    | ok a =>
      dsimp only []
      refine ⟨by simp [List.countP_cons, isSynthCall], by simp [List.countP_cons, isRewCall], ?_⟩
      intro _ prev
      simp [rewScan, isRewCall]
    | err msg =>
      dsimp only []
      by_cases hb : (includesStr msg ("Content blocked") && !rw) = true
      · rw [if_pos hb]
        have hrw : rw = false := by
          cases rw
          · rfl
          · simp at hb
        have hblocked : includesStr msg ("Content blocked") = true := by
          cases hincl : includesStr msg ("Content blocked")
          · rw [hincl] at hb; simp at hb
          · rfl
        subst hrw
        cases hr : env.rewrite lid text with
        | some t2 =>
          dsimp only []
          obtain ⟨iha, ihb, _⟩ := ih (attempt + 1) ({ l with text := t2, error := none }) t2 true
          simp only [if_pos rfl] at ihb
          have ihb0 : ((runLoop env lid fuel (attempt + 1) ({ l with text := t2, error := none })
              t2 true).2.1).countP isRewCall = 0 := Nat.le_zero.mp ihb
          refine ⟨?_, ?_, ?_⟩
          · simp [List.countP_cons, isSynthCall, isRewCall]
            omega
          · simp [List.countP_cons, isSynthCall, isRewCall, ihb0]
          · intro _ prev
            simp only [rewScan, isRewCall, isBlockedFailure]
            simp [hblocked, rewScan_of_no_rew _ ihb0]
        | none =>
          dsimp only []
          by_cases ha : attempt < RETRY_ATTEMPTS
          · rw [if_pos ha]
            dsimp only []
            obtain ⟨iha, ihb, _⟩ := ih (attempt + 1)
              ({ l with error := some ("Content blocked. Attempting to rewrite...") }) text true
            simp only [if_pos rfl] at ihb
            have ihb0 : ((runLoop env lid fuel (attempt + 1)
                ({ l with error := some ("Content blocked. Attempting to rewrite...") })
                text true).2.1).countP isRewCall = 0 := Nat.le_zero.mp ihb
            refine ⟨?_, ?_, ?_⟩
            · simp [List.countP_cons, isSynthCall, isRewCall]
              omega
            · simp [List.countP_cons, isSynthCall, isRewCall, ihb0]
            · intro _ prev
              simp only [rewScan, isRewCall, isBlockedFailure]
              simp [hblocked, rewScan_of_no_rew _ ihb0]
          · rw [if_neg ha]
            dsimp only []
            refine ⟨?_, ?_, ?_⟩
            · simp [List.countP_cons, isSynthCall, isRewCall]
            · simp [List.countP_cons, isSynthCall, isRewCall]
            · intro _ prev
              simp [rewScan, isRewCall, isSynthCall, isBlockedFailure, hblocked]
      · rw [if_neg hb]
        by_cases ha : attempt < RETRY_ATTEMPTS
        · rw [if_pos ha]
          dsimp only []
          obtain ⟨iha, ihb, ihc⟩ := ih (attempt + 1) l text rw
          refine ⟨?_, ?_, ?_⟩
          · simp [List.countP_cons, isSynthCall, isRewCall]
            omega
          · simp only [List.countP_cons, isRewCall]
            simpa using ihb
          · intro hrw prev
            simp only [rewScan, isRewCall]
            simp [ihc hrw]
        · rw [if_neg ha]
          dsimp only []
          refine ⟨?_, ?_, ?_⟩
          · simp [List.countP_cons, isSynthCall, isRewCall]
          · simp [List.countP_cons, isSynthCall, isRewCall]
          · intro _ prev
            simp [rewScan, isRewCall]

/-- C1: for every invocation of the line conversion run on a line, at most
5 synthesis calls and at most 1 rewrite call are made, and (`rewScan`) a
rewrite call occurs only immediately after a synthesis failure classified
as ContentBlocked and only if no rewrite has yet occurred in that run. -/
theorem c1_call_budget (env : ConvEnv) (l : Line) :
    (callsOf env l).countP isSynthCall ≤ RETRY_ATTEMPTS ∧
    (callsOf env l).countP isRewCall ≤ 1 ∧
    rewScan false none (callsOf env l) = true := by
  obtain ⟨ha, hb, hc⟩ := runLoop_calls_spec env l.id RETRY_ATTEMPTS 1
    ({ l with status := LineStatus.converting, error := none }) l.text false
  refine ⟨ha, ?_, hc rfl none⟩
  simpa using hb

theorem runLoop_writes_ok (env : ConvEnv) (lid : String) :
    ∀ (fuel attempt : ℕ) (l : Line) (text : String) (rw : Bool),
    l.status = LineStatus.converting →
    transOk retryAllowed LineStatus.converting (runLoop env lid fuel attempt l text rw).2.2 = true := by
  intro fuel
  induction fuel with
  | zero =>
    intro attempt l text rw _
    simp [runLoop, transOk]
  | succ fuel ih =>
    intro attempt l text rw hstat
    simp only [runLoop]
    cases hs : env.synth lid attempt (constructApiText env.voicePrompt text) with
    | ok a =>
      dsimp only []
      simp [transOk, retryAllowed, claimAllowed]
    | err msg =>
      dsimp only []
      by_cases hb : (includesStr msg ("Content blocked") && !rw) = true
      · rw [if_pos hb]
        cases hr : env.rewrite lid text with
        | some t2 =>
          dsimp only []
          have hw := ih (attempt + 1) ({ l with text := t2, error := none }) t2 true hstat
          rw [hstat] at hw
          simp [transOk, hstat, hw]
        | none =>
          dsimp only []
          by_cases ha : attempt < RETRY_ATTEMPTS
          · rw [if_pos ha]
            dsimp only []
            have hw := ih (attempt + 1)
              ({ l with error := some ("Content blocked. Attempting to rewrite...") }) text true hstat
            rw [hstat] at hw
            simp [transOk, hstat, hw]
          · rw [if_neg ha]
            dsimp only []
            simp [transOk, hstat, retryAllowed, claimAllowed]
      · rw [if_neg hb]
        by_cases ha : attempt < RETRY_ATTEMPTS
        · rw [if_pos ha]
          dsimp only []
          exact ih (attempt + 1) l text rw hstat
        · rw [if_neg ha]
          dsimp only []
          simp [transOk, retryAllowed, claimAllowed]

theorem convertLine_writes_ok (env : ConvEnv) (l : Line)
    (h : l.status = LineStatus.pending ∨ l.status = LineStatus.error) :
    transOk retryAllowed l.status (convertLine env l).2.2 = true := by
  simp only [convertLine, transOk]
  have hw := runLoop_writes_ok env l.id RETRY_ATTEMPTS 1
    ({ l with status := LineStatus.converting, error := none }) l.text false rfl
  rcases h with h | h <;> simp [h, retryAllowed, claimAllowed, hw]

theorem reach_pending_lines (b : FileBatch) (hb : Reach b) :
    b.status = FileStatus.pending → ∀ l ∈ b.lines, l.status = LineStatus.pending := by
  induction hb with
  | init fid name parsed =>
    intro _ l hl
    simp [mkBatch] at hl
    obtain ⟨p, _, rfl⟩ := hl
    rfl
  | step b op hb ih =>
    cases op with
    | convertOp env =>
      simp only [applyOp]
      by_cases hp : b.status = FileStatus.pending
      · rw [if_pos hp]
        intro hdone
        simp [batchConvert] at hdone
      · rw [if_neg hp]
        exact ih
    | retryOp env lid =>
      simp only [applyOp, retryLine]
      cases hf : b.lines.find? (fun l => l.id == lid) with
      | none => exact ih
      | some l =>
        dsimp only []
        by_cases he : l.status = LineStatus.error
        · rw [if_pos he]
          dsimp only []
          intro hp
          exfalso
          have hmem : l ∈ b.lines := List.mem_of_find?_eq_some hf
          have hbp : b.status = FileStatus.pending := by
            split at hp
            · exact absurd hp (by simp)
            · exact hp
          have hlp := ih hbp l hmem
          rw [hlp] at he
          exact absurd he (by decide)
        · rw [if_neg he]
          exact ih

/-- C2 (amended): during any operation on a reachable batch, every line's
published status changes follow Pending → Converting → Done or Error —
never reverting within a run, with Converting → Converting a no-op —
except that retrying an errored line starts a fresh run, performing the
additional transition Error → Converting. -/
theorem c2_amended_transitions (b : FileBatch) (op : Op) (hb : Reach b) :
    ∀ p ∈ (applyOp b op).2, transOk retryAllowed p.1 p.2 = true := by
  cases op with
  | convertOp env =>
    simp only [applyOp]
    by_cases hp : b.status = FileStatus.pending
    · rw [if_pos hp]
      intro p hmem
      simp [batchConvert] at hmem
      obtain ⟨l, hl, rfl⟩ := hmem
      have hpend := reach_pending_lines b hb hp l hl
      exact convertLine_writes_ok env l (Or.inl hpend)
    · rw [if_neg hp]
      intro p hmem
      simp at hmem
  | retryOp env lid =>
    simp only [applyOp, retryLine]
    cases hf : b.lines.find? (fun l => l.id == lid) with
    | none =>
      intro p hmem
      simp at hmem
    | some l =>
      dsimp only []
      by_cases he : l.status = LineStatus.error
      · rw [if_pos he]
        intro p hmem
        simp at hmem
        subst hmem
        exact convertLine_writes_ok env l (Or.inr he)
      · rw [if_neg he]
        intro p hmem
        simp at hmem

/-- A synthesis collaborator that always fails with a transport error and
a rewrite collaborator that always fails. -/
def envAllFail : ConvEnv :=
  { voicePrompt := "",
    synth := fun _ _ _ => .err ("Failed to convert text to speech: network error"),
    rewrite := fun _ _ => none }

/-- A synthesis collaborator whose attempts 1–4 fail with transport errors
and whose attempt 5 fails as a moderation block, with a rewrite
collaborator that succeeds. -/
def envStuck : ConvEnv :=
  { voicePrompt := "",
    synth := fun _ attempt _ =>
      if attempt == 5 then .err ("Failed to convert text to speech: Content blocked. Reason: SAFETY.")
      else .err ("Failed to convert text to speech: network error"),
    rewrite := fun _ _ => some ("a safe rewritten line") }

/-- A freshly uploaded single-line batch. -/
def demoBatch : FileBatch := mkBatch ("f") ("f.txt") [{ id := "001", text := "hello" }]

/-- C2 counterexample: convert a one-line batch whose five synthesis
attempts all fail (the line ends in Error), then invoke the per-line
retry on it. The retry publishes status Converting over Error: the
transition Error → Converting occurs, which the claimed transition
relation (`claimAllowed`) forbids — the status does revert. -/
theorem c2_status_reverts_on_retry :
    (applyOp (applyOp demoBatch (Op.convertOp envAllFail)).1 (Op.retryOp envAllFail ("001"))).2
      = [(LineStatus.error, [LineStatus.converting, LineStatus.error])] ∧
    claimAllowed LineStatus.error LineStatus.converting = false ∧
    transOk claimAllowed LineStatus.error [LineStatus.converting, LineStatus.error] = false := by
  decide

/-- C2 witness: the amended transition theorem applied to a concrete
reachable batch, operation and published status-write sequence. -/
theorem c2_amended_transitions_witness :
    transOk retryAllowed LineStatus.pending [LineStatus.converting, LineStatus.error] = true :=
  c2_amended_transitions demoBatch (Op.convertOp envAllFail)
    (Reach.init ("f") ("f.txt") [{ id := "001", text := "hello" }])
    (LineStatus.pending, [LineStatus.converting, LineStatus.error]) (by decide)

/-- C3 (code bug): converting a batch whose line fails attempts 1–4 with
transport errors and attempt 5 with a moderation block followed by a
successful rewrite: the `continue` consumes the fifth and final attempt,
the loop exits without any terminal status write, the line stays
`converting` — yet the batch is marked `done`. So "batch status == Done
exactly when every line has reached a terminal state" fails on this run. -/
theorem c3_stuck_converting_line :
    (applyOp demoBatch (Op.convertOp envStuck)).1.status = FileStatus.done ∧
    ∃ l ∈ (applyOp demoBatch (Op.convertOp envStuck)).1.lines,
      ¬(l.status = LineStatus.done ∨ l.status = LineStatus.error) := by
  decide

/-! ## Audio merge engines (`handleDownloadConcatMerged`,
`handleDownloadSrtMerged`) -/

/-- `const bytesPerSecond = sampleRate * numChannels * bytesPerSample`. -/
def bytesPerSecond : ℕ := sampleRate * numChannels * bytesPerSample

/-- `lines.filter(line => line.status === 'done' && line.audioData)`. -/
def successfulConcatLines (lines : List Line) : List Line :=
  lines.filter (fun l => decide (l.status = LineStatus.done) && hasAudio l)

/-- `lines.filter(line => line.status === 'done' && line.audioData &&
line.endTimeMs !== undefined)`. -/
def successfulTimedLines (lines : List Line) : List Line :=
  lines.filter (fun l => decide (l.status = LineStatus.done) && hasAudio l && l.endTimeMs.isSome)

/-- `Math.max(...successfulLines.map(line => line.endTimeMs!))` — on the
nonempty filtered list all `endTimeMs` are present, and the values are
non-negative, so the fold from 0 is that maximum. -/
def lastEndTimeMs (ls : List Line) : ℕ :=
  (ls.map (fun l => l.endTimeMs.getD 0)).foldl max 0

/-- The exact-arithmetic idealization of
`Math.ceil((totalDurationMs / 1000) * bytesPerSecond)` (its value is
`48 * totalDurationMs`). The program evaluates the expression in IEEE-754
binary64, whose rounding can push the product just above the integer and
make the ceiling one larger; only statements that are robust to that
rounding are settled against this definition — `timedTotalBytesJS` below
is the bit-faithful binary64 version. -/
def timedTotalBytes (totalDurationMs : ℕ) : ℕ :=
  (⌈((totalDurationMs : ℚ) / 1000) * (bytesPerSecond : ℚ)⌉).toNat

/-- `totalBytes % 2 === 0 ? totalBytes : totalBytes + 1`. -/
def evenUp (totalBytes : ℕ) : ℕ :=
  if totalBytes % 2 == 0 then totalBytes else totalBytes + 1

/-- The exact-arithmetic idealization of
`(line.startTimeMs / 1000) * bytesPerSecond` (the true product
`48 * startTimeMs`). The program computes it in binary64, where the
result can fall just below the integer and the `set` offset then
truncates one byte earlier — see `startByteJS` below for the bit-faithful
version. Only rounding-robust statements are settled against this. -/
def startByteOf (startTimeMs : ℕ) : ℕ := startTimeMs * bytesPerSecond / 1000

/-- The guarded copy of one decoded chunk into the canvas: whole-chunk
copy when it fits, otherwise `audioChunk.slice(0, mergedPcm.length -
startByte)` then copy (silent truncation). -/
def placeChunk (buf : List ℕ) (startByte : ℕ) (chunk : List ℕ) : List ℕ :=
  if startByte + chunk.length ≤ buf.length then writeBytesAt buf startByte chunk
  else writeBytesAt buf startByte (chunk.take (buf.length - startByte))

/-- One iteration of the placement loop: skip the line when
`!line.audioData || line.startTimeMs === undefined`, else decode and
place at its start-time byte offset. The offset arithmetic is the exact
idealization; `placeLineJS` below is the binary64-faithful version. -/
def placeLine (buf : List ℕ) (l : Line) : List ℕ :=
  if !hasAudio l || l.startTimeMs.isNone then buf
  else placeChunk buf (startByteOf (l.startTimeMs.getD 0)) (decode (l.audioData.getD ("")))

/-- The timed (SRT) merge core of `handleDownloadSrtMerged`: filter, fail
when no line qualifies, size an even, zero-filled canvas from the last
end time plus a 2000 ms buffer, then place every qualifying line. The
canvas and offset arithmetic is the exact idealization; `mergeTimedJS`
below is the binary64-faithful engine. -/
def mergeTimed (lines : List Line) : Except String (List ℕ) :=
  let successfulLines := successfulTimedLines lines
  if successfulLines.isEmpty then
    Except.error ("No successful audio files to merge for this SRT.")
  else
    let lastEnd := lastEndTimeMs successfulLines
    let totalDurationMs := lastEnd + 2000
    let finalTotalBytes := evenUp (timedTotalBytes totalDurationMs)
    let mergedPcm := List.replicate finalTotalBytes 0
    Except.ok (successfulLines.foldl placeLine mergedPcm)

/-- The concatenation loop of `handleDownloadConcatMerged`:
`mergedPcm.set(chunk, offset); offset += chunk.length` over the chunks. -/
def concatWrite : List ℕ → ℕ → List (List ℕ) → List ℕ
  | buf, _, [] => buf
  | buf, off, c :: cs => concatWrite (writeBytesAt buf off c) (off + c.length) cs

/-- The concat merge core of `handleDownloadConcatMerged`: filter, fail
when no line qualifies, then concatenate the decoded chunks into a buffer
sized as the sum of their lengths. -/
def mergeConcat (lines : List Line) : Except String (List ℕ) :=
  let successfulLines := successfulConcatLines lines
  if successfulLines.isEmpty then
    Except.error ("No successful audio files to merge.")
  else
    let pcmChunks := successfulLines.map (fun l => decode (l.audioData.getD ("")))
    let totalLength := pcmChunks.foldl (fun acc chunk => acc + chunk.length) 0
    Except.ok (concatWrite (List.replicate totalLength 0) 0 pcmChunks)

/-- `handleDownloadConcatMerged` at the batch level: the handler toggles
`isMerging` on around the merge (true, then false in `finally`) and never
touches the line records — on success or failure alike. -/
def concatHandler (b : FileBatch) : FileBatch × Except String (List ℕ) :=
  ({ b with isMerging := false }, mergeConcat b.lines)

/-- `handleDownloadSrtMerged` at the batch level; like `concatHandler`,
the line records are never touched. -/
def timedHandler (b : FileBatch) : FileBatch × Except String (List ℕ) :=
  ({ b with isMerging := false }, mergeTimed b.lines)

/-- The output length stated by the specification for the timed merge:
`ceil((max(endTimeMs over lines with status Done and a defined endTimeMs)
+ 2000) / 1000 * 48000)` rounded up to the next even value. -/
def specTimedOutputLen (lines : List Line) : ℕ :=
  let m := ((lines.filter (fun l => decide (l.status = LineStatus.done) && l.endTimeMs.isSome)).map
    (fun l => l.endTimeMs.getD 0)).foldl max 0
  evenUp ((⌈(((m + 2000 : ℕ) : ℚ) / 1000) * 48000⌉).toNat)

theorem bytesPerSecond_eq : bytesPerSecond = 48000 := by decide

theorem timedTotalBytes_eq (d : ℕ) : timedTotalBytes d = 48 * d := by
  rw [timedTotalBytes, bytesPerSecond_eq]
  have h : ((d : ℚ) / 1000) * ((48000 : ℕ) : ℚ) = ((48 * d : ℕ) : ℚ) := by
    push_cast
    ring
  rw [h, Int.ceil_natCast]
  omega

theorem length_placeChunk (buf : List ℕ) (startByte : ℕ) (chunk : List ℕ) :
    (placeChunk buf startByte chunk).length = buf.length := by
  rw [placeChunk]
  split <;> rw [length_writeBytesAt]

theorem length_placeLine (buf : List ℕ) (l : Line) :
    (placeLine buf l).length = buf.length := by
  rw [placeLine]
  split
  · rfl
  · rw [length_placeChunk]

theorem length_foldl_placeLine (ls : List Line) : ∀ (buf : List ℕ),
    (ls.foldl placeLine buf).length = buf.length := by
  induction ls with
  | nil => intro buf; rfl
  | cons l rest ih =>
    intro buf
    rw [List.foldl_cons, ih, length_placeLine]

theorem concatWrite_eq (chunks : List (List ℕ)) : ∀ (pre : List ℕ) (k : ℕ),
    k = (chunks.map List.length).sum →
    concatWrite (pre ++ List.replicate k 0) pre.length chunks = pre ++ chunks.flatten := by
  induction chunks with
  | nil =>
    intro pre k hk
    subst hk
    simp [concatWrite]
  | cons c cs ih =>
    intro pre k hk
    have hk' : k = c.length + (cs.map List.length).sum := by simp [hk]
    subst hk'
    rw [concatWrite]
    have hw : writeBytesAt (pre ++ List.replicate (c.length + (cs.map List.length).sum) 0)
        pre.length c = (pre ++ c) ++ List.replicate ((cs.map List.length).sum) 0 := by
      rw [writeBytesAt_eq pre.length _ c (by simp)]
      have hsub : c.length + (cs.map List.length).sum - c.length = (cs.map List.length).sum := by
        omega
      rw [List.take_left, List.drop_append, List.drop_replicate, hsub]
    rw [hw, show pre.length + c.length = (pre ++ c).length by simp,
      ih (pre ++ c) _ rfl]
    simp

theorem foldl_add_length (chunks : List (List ℕ)) : ∀ (a : ℕ),
    chunks.foldl (fun acc chunk => acc + chunk.length) a = a + (chunks.map List.length).sum := by
  induction chunks with
  | nil => intro a; simp
  | cons c cs ih =>
    intro a
    rw [List.foldl_cons, ih]
    simp
    omega

theorem foldl_max_init_le (xs : List ℕ) : ∀ (a : ℕ), a ≤ xs.foldl max a := by
  induction xs with
  | nil => intro a; exact Nat.le_refl a
  | cons c cs ih =>
    intro a
    exact Nat.le_trans (Nat.le_max_left a c) (ih (max a c))

theorem le_foldl_max_of_mem (xs : List ℕ) : ∀ (a x : ℕ), x ∈ xs → x ≤ xs.foldl max a := by
  induction xs with
  | nil => intro a x hx; cases hx
  | cons c cs ih =>
    intro a x hx
    rw [List.foldl_cons]
    cases List.mem_cons.mp hx with
    | inl h =>
      subst h
      exact Nat.le_trans (Nat.le_max_right a x) (foldl_max_init_le cs (max a x))
    | inr h => exact ih (max a c) x h

theorem evenUp_ge (n : ℕ) : n ≤ evenUp n := by
  rw [evenUp]
  split <;> omega

theorem successfulConcat_eq_doneFilter (lines : List Line)
    (hinv : ∀ l ∈ lines, l.status = LineStatus.done → hasAudio l = true) :
    successfulConcatLines lines =
      lines.filter (fun l => decide (l.status = LineStatus.done)) := by
  apply List.filter_congr
  intro x hx
  by_cases hd : x.status = LineStatus.done
  · simp [hd, hinv x hx hd]
  · simp [hd]

theorem successfulTimed_eq_doneEndFilter (lines : List Line)
    (hinv : ∀ l ∈ lines, l.status = LineStatus.done → hasAudio l = true) :
    successfulTimedLines lines =
      lines.filter (fun l => decide (l.status = LineStatus.done) && l.endTimeMs.isSome) := by
  apply List.filter_congr
  intro x hx
  by_cases hd : x.status = LineStatus.done
  · simp [hd, hinv x hx hd]
  · simp [hd]

/-- C5: on a batch whose Done lines all carry audio (the data-model
invariant) and that has at least one Done line, the concat merge returns
exactly the byte concatenation of the decoded payloads of the Done lines,
in original order with no padding or gaps, and the output length is the
sum of the decoded chunk lengths. -/
theorem c5_concat_merge (lines : List Line)
    (hinv : ∀ l ∈ lines, l.status = LineStatus.done → hasAudio l = true)
    (hne : ∃ l ∈ lines, l.status = LineStatus.done) :
    mergeConcat lines =
      Except.ok (((lines.filter (fun l => decide (l.status = LineStatus.done))).map
        (fun l => decode (l.audioData.getD ("")))).flatten) ∧
    (((lines.filter (fun l => decide (l.status = LineStatus.done))).map
        (fun l => decode (l.audioData.getD ("")))).flatten).length =
      (((lines.filter (fun l => decide (l.status = LineStatus.done))).map
        (fun l => decode (l.audioData.getD ("")))).map List.length).sum := by
  have hfe := successfulConcat_eq_doneFilter lines hinv
  have hne' : ¬ (successfulConcatLines lines).isEmpty = true := by
    rw [hfe, List.isEmpty_iff]
    obtain ⟨l, hl, hld⟩ := hne
    intro hnil
    have hx := List.filter_eq_nil_iff.mp hnil l hl
    simp [hld] at hx
  constructor
  · simp only [mergeConcat]
    rw [if_neg hne', hfe]
    congr 1
    rw [foldl_add_length]
    simpa using concatWrite_eq
      ((lines.filter (fun l => decide (l.status = LineStatus.done))).map
        (fun l => decode (l.audioData.getD ("")))) [] _ rfl
  · exact List.length_flatten _

/-- A Done line with audio and timing, for witnesses. -/
def demoDoneLine : Line :=
  { id := "001", text := "hello", status := LineStatus.done, audioData := some ("AAAA"),
    startTimeMs := some 0, endTimeMs := some 1000 }

/-- An errored line, for witnesses. -/
def demoErrorLine : Line :=
  { id := "002", text := "world", status := LineStatus.error, error := some ("boom") }

/-- A Done line with audio and an end time but no start time, for C10. -/
def demoNoStartLine : Line :=
  { id := "003", text := "tail", status := LineStatus.done, audioData := some ("AAAA"),
    startTimeMs := none, endTimeMs := some 5000 }

/-- C5 witness: the concat-merge theorem at a concrete two-line batch. -/
theorem c5_concat_merge_witness :
    mergeConcat [demoDoneLine, demoErrorLine] =
      Except.ok ((([demoDoneLine, demoErrorLine].filter
        (fun l => decide (l.status = LineStatus.done))).map
        (fun l => decode (l.audioData.getD ("")))).flatten) ∧
    ((([demoDoneLine, demoErrorLine].filter
        (fun l => decide (l.status = LineStatus.done))).map
        (fun l => decode (l.audioData.getD ("")))).flatten).length =
      ((([demoDoneLine, demoErrorLine].filter
        (fun l => decide (l.status = LineStatus.done))).map
        (fun l => decode (l.audioData.getD ("")))).map List.length).sum :=
  c5_concat_merge [demoDoneLine, demoErrorLine] (by decide) (by decide)

/-- C8: under the data-model invariant, the concat merge fails with the
NoSuccessfulLines error exactly when the batch has no Done line, the
timed merge fails with its NoSuccessfulLines error exactly when the batch
has no Done line with a defined endTimeMs, and in either case the
handlers leave every line record untouched. -/
theorem c8_no_successful_lines (b : FileBatch)
    (hinv : ∀ l ∈ b.lines, l.status = LineStatus.done → hasAudio l = true) :
    ((concatHandler b).2 = Except.error ("No successful audio files to merge.") ↔
      ∀ l ∈ b.lines, ¬ l.status = LineStatus.done) ∧
    (concatHandler b).1.lines = b.lines ∧
    ((timedHandler b).2 = Except.error ("No successful audio files to merge for this SRT.") ↔
      ∀ l ∈ b.lines, ¬ (l.status = LineStatus.done ∧ l.endTimeMs ≠ none)) ∧
    (timedHandler b).1.lines = b.lines := by
  have hks : ((successfulConcatLines b.lines).isEmpty = true) ↔
      (∀ l ∈ b.lines, ¬ l.status = LineStatus.done) := by
    rw [successfulConcat_eq_doneFilter b.lines hinv, List.isEmpty_iff, List.filter_eq_nil_iff]
    simp
  have hkt : ((successfulTimedLines b.lines).isEmpty = true) ↔
      (∀ l ∈ b.lines, ¬ (l.status = LineStatus.done ∧ l.endTimeMs ≠ none)) := by
    rw [successfulTimed_eq_doneEndFilter b.lines hinv, List.isEmpty_iff, List.filter_eq_nil_iff]
    simp [Option.isSome_iff_ne_none]
  refine ⟨?_, rfl, ?_, rfl⟩
  · show mergeConcat b.lines = Except.error ("No successful audio files to merge.") ↔ _
    simp only [mergeConcat]
    by_cases hemp : (successfulConcatLines b.lines).isEmpty = true
    · rw [if_pos hemp]
      constructor
      · intro _
        exact hks.mp hemp
      · intro _
        rfl
    · rw [if_neg hemp]
      constructor
      · intro hcontra
        exact absurd hcontra (by simp)
      · intro hall
        exact absurd (hks.mpr hall) hemp
  · show mergeTimed b.lines = Except.error ("No successful audio files to merge for this SRT.") ↔ _
    simp only [mergeTimed]
    by_cases hemp : (successfulTimedLines b.lines).isEmpty = true
    · rw [if_pos hemp]
      constructor
      · intro _
        exact hkt.mp hemp
      · intro _
        rfl
    · rw [if_neg hemp]
      constructor
      · intro hcontra
        exact absurd hcontra (by simp)
      · intro hall
        exact absurd (hkt.mpr hall) hemp

/-- A finished batch all of whose lines errored, for the C8 witness. -/
def demoErrorBatch : FileBatch :=
  { id := "g", name := "g.txt", status := FileStatus.done, lines := [demoErrorLine] }

/-- C8 witness: the merge-failure theorem at a concrete all-error batch. -/
theorem c8_no_successful_lines_witness :
    ((concatHandler demoErrorBatch).2 =
        Except.error ("No successful audio files to merge.") ↔
      ∀ l ∈ demoErrorBatch.lines, ¬ l.status = LineStatus.done) ∧
    (concatHandler demoErrorBatch).1.lines = demoErrorBatch.lines ∧
    ((timedHandler demoErrorBatch).2 =
        Except.error ("No successful audio files to merge for this SRT.") ↔
      ∀ l ∈ demoErrorBatch.lines, ¬ (l.status = LineStatus.done ∧ l.endTimeMs ≠ none)) ∧
    (timedHandler demoErrorBatch).1.lines = demoErrorBatch.lines :=
  c8_no_successful_lines demoErrorBatch (by decide)

/-- C10: a line with status Done, audio, a defined endTimeMs but an
undefined startTimeMs is included in the filtered lines (so its end time
enters the max that sizes the canvas — the output covers at least
48 * (endTimeMs + 2000) bytes) yet the placement loop skips it, so it
never contributes audio bytes: placing it is the identity on any canvas. -/
theorem c10_end_only_line (lines : List Line) (l : Line) (e : ℕ)
    (hmem : l ∈ lines) (hdone : l.status = LineStatus.done)
    (haud : hasAudio l = true) (hend : l.endTimeMs = some e)
    (hstart : l.startTimeMs = none) :
    l ∈ successfulTimedLines lines ∧
    (∀ buf, placeLine buf l = buf) ∧
    (∃ out, mergeTimed lines = Except.ok out ∧ 48 * (e + 2000) ≤ out.length) := by
  have hmem' : l ∈ successfulTimedLines lines := by
    rw [successfulTimedLines, List.mem_filter]
    refine ⟨hmem, ?_⟩
    simp [hdone, haud, hend]
  refine ⟨hmem', ?_, ?_⟩
  · intro buf
    rw [placeLine, if_pos]
    simp [hstart]
  · have hne' : ¬ (successfulTimedLines lines).isEmpty = true := by
      rw [List.isEmpty_iff]
      intro hnil
      rw [hnil] at hmem'
      cases hmem'
    simp only [mergeTimed]
    rw [if_neg hne']
    refine ⟨_, rfl, ?_⟩
    rw [length_foldl_placeLine, List.length_replicate]
    have he_le : e ≤ lastEndTimeMs (successfulTimedLines lines) := by
      rw [lastEndTimeMs]
      apply le_foldl_max_of_mem
      rw [List.mem_map]
      exact ⟨l, hmem', by rw [hend]; rfl⟩
    calc 48 * (e + 2000)
        ≤ 48 * (lastEndTimeMs (successfulTimedLines lines) + 2000) :=
          Nat.mul_le_mul_left 48 (by omega)
      _ = timedTotalBytes (lastEndTimeMs (successfulTimedLines lines) + 2000) :=
          (timedTotalBytes_eq _).symm
      _ ≤ evenUp (timedTotalBytes (lastEndTimeMs (successfulTimedLines lines) + 2000)) :=
          evenUp_ge _

/-- C10 witness: the end-only-line theorem at a concrete batch containing
a placed line and an end-only line. -/
theorem c10_end_only_line_witness :
    demoNoStartLine ∈ successfulTimedLines [demoDoneLine, demoNoStartLine] ∧
    (∀ buf, placeLine buf demoNoStartLine = buf) ∧
    (∃ out, mergeTimed [demoDoneLine, demoNoStartLine] = Except.ok out ∧
      48 * (5000 + 2000) ≤ out.length) :=
  c10_end_only_line [demoDoneLine, demoNoStartLine] demoNoStartLine 5000
    (by decide) (by decide) (by decide) (by decide) (by decide)

/-! ## Binary64 (IEEE-754 double) semantics of the timed-merge arithmetic

JS numbers are IEEE-754 binary64 doubles. The quantities the timed merge
manipulates — millisecond timestamps, list lengths, the constants — are
integers far below 2^53 and hence exact, but `startTimeMs / 1000` and
`totalDurationMs / 1000` are not representable, so the division and the
following multiplication each round. The definitions below model that
rounding exactly (round to nearest, ties to even, 53-bit significand;
the magnitudes involved are all in the normal, non-overflowing range),
built on the kernel-computable `Rat` primitives, and the `JS`-suffixed
engines restate the timed merge over them. -/

/-- Structural floor-log2 (fuel-driven; `natLog2F n n` halves at most
`log2 n` times). -/
def natLog2F : ℕ → ℕ → ℕ
  | 0, _ => 0
  | fuel + 1, n => if n < 2 then 0 else 1 + natLog2F fuel (n / 2)

/-- `⌊log2 n⌋` for `n ≥ 1` (0 at 0). -/
def natLog2 (n : ℕ) : ℕ := natLog2F n n

/-- The rational `2 ^ k` for an integer `k`. -/
def pow2 (k : ℤ) : ℚ :=
  if 0 ≤ k then mkRat (((2 : ℕ) ^ k.toNat : ℕ) : ℤ) 1 else mkRat 1 ((2 : ℕ) ^ (-k).toNat)

/-- The greatest `e` with `2 ^ e ≤ a`, for positive `a` (the binade of a
positive real). The log2 guess from numerator and denominator is within
one of the answer and is corrected by direct comparison. -/
def binadeExp (a : ℚ) : ℤ :=
  let k : ℤ := (natLog2 a.num.toNat : ℤ) - (natLog2 a.den : ℤ)
  if pow2 (k + 1) ≤ a then k + 1
  else if pow2 k ≤ a then k
  else k - 1

/-- Round a rational to the nearest IEEE-754 binary64 value (ties to
even), for magnitudes in the normal range: scale into the binade
`[2^52, 2^53)`, round the 53-bit significand, scale back. -/
def roundDouble (q : ℚ) : ℚ :=
  if q = 0 then 0
  else
    let a : ℚ := if q < 0 then Rat.neg q else q
    let e : ℤ := binadeExp a - 52
    let m : ℚ := Rat.mul a (pow2 (-e))
    let lo : ℤ := Rat.floor m
    let fr : ℚ := Rat.sub m (mkRat lo 1)
    let rounded : ℤ :=
      if fr < mkRat 1 2 then lo
      else if mkRat 1 2 < fr then lo + 1
      else if lo % 2 = 0 then lo else lo + 1
    let res : ℚ := Rat.mul (mkRat rounded 1) (pow2 e)
    if q < 0 then Rat.neg res else res

/-- Correctly rounded binary64 division, as JS `/` performs it. -/
def jsDiv (x y : ℚ) : ℚ := roundDouble (Rat.div x y)

/-- Correctly rounded binary64 multiplication. -/
def jsMul (x y : ℚ) : ℚ := roundDouble (Rat.mul x y)

/-- Correctly rounded binary64 addition. -/
def jsAdd (x y : ℚ) : ℚ := roundDouble (Rat.add x y)

/-- Correctly rounded binary64 subtraction. -/
def jsSub (x y : ℚ) : ℚ := roundDouble (Rat.sub x y)

/-- `ToIntegerOrInfinity`: truncation toward zero, applied by
`TypedArray.set` to its offset and by `slice` to its end argument. -/
def jsToIntTrunc (q : ℚ) : ℤ := if 0 ≤ q then Rat.floor q else Rat.ceil q

/-- `(line.startTimeMs / 1000) * bytesPerSecond` in binary64: the
division rounds, then the multiplication rounds. -/
def startByteJS (startTimeMs : ℕ) : ℚ :=
  jsMul (jsDiv (startTimeMs : ℚ) 1000) ((bytesPerSecond : ℕ) : ℚ)

/-- `Math.ceil((totalDurationMs / 1000) * bytesPerSecond)` in binary64;
the ceiling of a double below 2^53 is the exact mathematical ceiling of
its rational value. -/
def timedTotalBytesJS (totalDurationMs : ℕ) : ℕ :=
  (Rat.ceil (jsMul (jsDiv (totalDurationMs : ℚ) 1000) ((bytesPerSecond : ℕ) : ℚ))).toNat

/-- The element count of `chunk.slice(0, endq)` for a float end argument:
truncate toward zero, clamp a negative value against the length from
above, a nonnegative one from below. -/
def sliceCount (len : ℕ) (endq : ℚ) : ℕ :=
  let r := jsToIntTrunc endq
  if r < 0 then ((len : ℤ) + r).toNat else min r.toNat len

/-- `chunk.slice(0, endq)`. -/
def sliceTo (chunk : List ℕ) (endq : ℚ) : List ℕ :=
  chunk.take (sliceCount chunk.length endq)

/-- `buf.set(src, offq)` with a float offset: the offset is truncated
toward zero. (In the program's reachable states the guarded writes stay
in range; the model drops out-of-range byte writes instead of throwing.) -/
def setAt (buf : List ℕ) (offq : ℚ) (src : List ℕ) : List ℕ :=
  writeBytesAt buf (jsToIntTrunc offq).toNat src

/-- The guarded placement of one decoded chunk, with the source's float
arithmetic: the guard `startByte + audioChunk.length <= mergedPcm.length`
compares the rounded binary64 sum, the whole-chunk `set` truncates the
float offset, and the truncation branch slices
`mergedPcm.length - startByte` (a rounded difference) off the chunk. -/
def placeChunkJS (buf : List ℕ) (startByte : ℚ) (audioChunk : List ℕ) : List ℕ :=
  if jsAdd startByte (audioChunk.length : ℚ) ≤ (buf.length : ℚ) then
    setAt buf startByte audioChunk
  else
    setAt buf startByte (sliceTo audioChunk (jsSub (buf.length : ℚ) startByte))

/-- One placement-loop iteration with binary64 arithmetic. -/
def placeLineJS (buf : List ℕ) (l : Line) : List ℕ :=
  if !hasAudio l || l.startTimeMs.isNone then buf
  else placeChunkJS buf (startByteJS (l.startTimeMs.getD 0)) (decode (l.audioData.getD ("")))

/-- The timed merge with binary64 arithmetic throughout (the bit-faithful
engine; the control flow is that of `mergeTimed`). -/
def mergeTimedJS (lines : List Line) : Except String (List ℕ) :=
  let successfulLines := successfulTimedLines lines
  if successfulLines.isEmpty then
    Except.error ("No successful audio files to merge for this SRT.")
  else
    let lastEnd := lastEndTimeMs successfulLines
    let totalDurationMs := lastEnd + 2000
    let finalTotalBytes := evenUp (timedTotalBytesJS totalDurationMs)
    let mergedPcm := List.replicate finalTotalBytes 0
    Except.ok (successfulLines.foldl placeLineJS mergedPcm)

/-- The specification's output-length formula evaluated the way the
program evaluates it, in binary64: ceil((max endTimeMs + 2000) / 1000 *
48000) with the division and multiplication each rounded, then rounded
up to the next even value. -/
def specTimedOutputLenJS (lines : List Line) : ℕ :=
  let m := ((lines.filter (fun l => decide (l.status = LineStatus.done) && l.endTimeMs.isSome)).map
    (fun l => l.endTimeMs.getD 0)).foldl max 0
  evenUp ((Rat.ceil (jsMul (jsDiv (((m + 2000 : ℕ)) : ℚ) 1000) ((48000 : ℕ) : ℚ))).toNat)

theorem sliceCount_le (len : ℕ) (endq : ℚ) : sliceCount len endq ≤ len := by
  rw [sliceCount]
  split
  · omega
  · exact Nat.min_le_right ..

theorem length_placeChunkJS (buf : List ℕ) (startByte : ℚ) (chunk : List ℕ) :
    (placeChunkJS buf startByte chunk).length = buf.length := by
  simp only [placeChunkJS, setAt]
  split <;> rw [length_writeBytesAt]

theorem length_placeLineJS (buf : List ℕ) (l : Line) :
    (placeLineJS buf l).length = buf.length := by
  rw [placeLineJS]
  split
  · rfl
  · rw [length_placeChunkJS]

theorem length_foldl_placeLineJS (ls : List Line) : ∀ (buf : List ℕ),
    (ls.foldl placeLineJS buf).length = buf.length := by
  induction ls with
  | nil => intro buf; rfl
  | cons l rest ih =>
    intro buf
    rw [List.foldl_cons, ih, length_placeLineJS]

/-- A Done line with endTimeMs = 47 ms, on which the binary64 canvas size
differs from the exact formula. -/
def c6Line : Line :=
  { id := "001", text := "hello", status := LineStatus.done, audioData := some ("AAAA"),
    startTimeMs := some 0, endTimeMs := some 47 }

set_option maxRecDepth 8000 in
/-- C6 counterexample: at endTimeMs = 47 the program computes
(2047 / 1000) * 48000 = 98256.00000000001 in binary64, so Math.ceil gives
98257 and the even rounding 98258 bytes — while the claim's exact formula
gives ceil(2047 / 1000 * 48000) = 98256, already even. The claimed output
length is false of the program. -/
theorem c6_float_counterexample :
    (∃ out, mergeTimedJS [c6Line] = Except.ok out ∧ out.length = 98258) ∧
    specTimedOutputLen [c6Line] = 98256 ∧ (98258 : ℕ) ≠ 98256 := by
  refine ⟨?_, ?_, by decide⟩
  · have hne' : ¬ (successfulTimedLines [c6Line]).isEmpty = true := by decide
    simp only [mergeTimedJS]
    rw [if_neg hne']
    refine ⟨_, rfl, ?_⟩
    rw [length_foldl_placeLineJS, List.length_replicate]
    with_unfolding_all decide
  · simp only [specTimedOutputLen]
    have h1 : (([c6Line].filter
        (fun l => decide (l.status = LineStatus.done) && l.endTimeMs.isSome)).map
        (fun l => l.endTimeMs.getD 0)).foldl max 0 = 47 := by decide
    rw [h1]
    have h2 : (((47 + 2000 : ℕ) : ℚ) / 1000) * 48000 = ((98256 : ℕ) : ℚ) := by
      push_cast
      norm_num
    rw [h2, Int.ceil_natCast]
    decide

/-- C6 (amended): on a batch whose Done lines all carry audio and that
has at least one Done line with a defined endTimeMs, the timed merge
succeeds and its output length equals ceil((max(endTimeMs over included
lines) + 2000) / 1000 * 48000) evaluated in IEEE-754 binary64 arithmetic
exactly as the program evaluates it, rounded up to the next even value. -/
theorem c6_timed_length_binary64 (lines : List Line)
    (hinv : ∀ l ∈ lines, l.status = LineStatus.done → hasAudio l = true)
    (hne : ∃ l ∈ lines, l.status = LineStatus.done ∧ l.endTimeMs ≠ none) :
    ∃ out, mergeTimedJS lines = Except.ok out ∧ out.length = specTimedOutputLenJS lines := by
  have hfe := successfulTimed_eq_doneEndFilter lines hinv
  have hne' : ¬ (successfulTimedLines lines).isEmpty = true := by
    rw [hfe, List.isEmpty_iff]
    obtain ⟨l, hl, hld, hle⟩ := hne
    intro hnil
    have hx := List.filter_eq_nil_iff.mp hnil l hl
    simp [hld, Option.isSome_iff_ne_none, hle] at hx
  simp only [mergeTimedJS]
  rw [if_neg hne']
  refine ⟨_, rfl, ?_⟩
  rw [length_foldl_placeLineJS, List.length_replicate]
  simp only [specTimedOutputLenJS]
  rw [hfe]
  simp only [lastEndTimeMs, timedTotalBytesJS, bytesPerSecond_eq]

/-- C6 witness: the binary64 timed-merge length theorem at a concrete
batch. -/
theorem c6_timed_length_binary64_witness :
    ∃ out, mergeTimedJS [demoDoneLine, demoErrorLine] = Except.ok out ∧
      out.length = specTimedOutputLenJS [demoDoneLine, demoErrorLine] :=
  c6_timed_length_binary64 [demoDoneLine, demoErrorLine] (by decide) (by decide)

set_option maxRecDepth 8000 in
/-- C7 counterexample: at startTimeMs = 9 the binary64 offset is
(9 / 1000) * 48000 = 431.99999999999994, so the bytes land at the
truncated offset O = 431. With a 500-byte canvas and a 69-byte chunk,
O + L = 500 ≤ canvasBytes — the claim requires the whole chunk copied —
yet the float guard 431.99999999999994 + 69 ≤ 500 fails, the truncation
branch slices trunc(500 - 431.99999999999994) = 68 = canvasBytes - O - 1
bytes, and the placed result is not the whole-chunk copy. -/
theorem c7_float_counterexample :
    (jsToIntTrunc (startByteJS 9)).toNat = 431 ∧
    431 + 69 ≤ (List.replicate 500 (0 : ℕ)).length ∧
    ¬ jsAdd (startByteJS 9) ((List.replicate 69 (7 : ℕ)).length : ℚ) ≤
      ((List.replicate 500 (0 : ℕ)).length : ℚ) ∧
    sliceCount 69 (jsSub ((List.replicate 500 (0 : ℕ)).length : ℚ) (startByteJS 9)) = 68 ∧
    placeChunkJS (List.replicate 500 0) (startByteJS 9) (List.replicate 69 7) ≠
      (List.replicate 500 (0 : ℕ)).take 431 ++ List.replicate 69 7 ++
        (List.replicate 500 (0 : ℕ)).drop 500 := by
  with_unfolding_all decide

/-- C7 (amended): the timed merge's placement step never resizes the
canvas and raises no error; the write lands at the truncated float offset
O: when the binary64 guard passes and the write fits, the whole chunk is
copied at O, and when the guard fails, exactly the slice count
trunc(canvasBytes - startByte) (clamped to the chunk, at most
canvasBytes - O and possibly one byte fewer when the double offset
carries rounding error) is copied at O. -/
theorem c7_no_overflow_binary64 (buf : List ℕ) (startByte : ℚ) (chunk : List ℕ) :
    (placeChunkJS buf startByte chunk).length = buf.length ∧
    (jsAdd startByte (chunk.length : ℚ) ≤ (buf.length : ℚ) →
      (jsToIntTrunc startByte).toNat + chunk.length ≤ buf.length →
      placeChunkJS buf startByte chunk =
        buf.take (jsToIntTrunc startByte).toNat ++ chunk ++
          buf.drop ((jsToIntTrunc startByte).toNat + chunk.length)) ∧
    (¬ jsAdd startByte (chunk.length : ℚ) ≤ (buf.length : ℚ) →
      (jsToIntTrunc startByte).toNat +
          sliceCount chunk.length (jsSub (buf.length : ℚ) startByte) ≤ buf.length →
      placeChunkJS buf startByte chunk =
        buf.take (jsToIntTrunc startByte).toNat ++
          chunk.take (sliceCount chunk.length (jsSub (buf.length : ℚ) startByte)) ++
          buf.drop ((jsToIntTrunc startByte).toNat +
            sliceCount chunk.length (jsSub (buf.length : ℚ) startByte))) := by
  refine ⟨length_placeChunkJS buf startByte chunk, ?_, ?_⟩
  · intro hg hfit
    simp only [placeChunkJS, setAt]
    rw [if_pos hg]
    exact writeBytesAt_eq _ _ _ hfit
  · intro hg hfit
    have hcle : sliceCount chunk.length (jsSub (buf.length : ℚ) startByte) ≤ chunk.length :=
      sliceCount_le ..
    simp only [placeChunkJS, setAt, sliceTo]
    rw [if_neg hg]
    rw [writeBytesAt_eq _ _ _ (by simp [List.length_take]; omega)]
    have hlen : (chunk.take (sliceCount chunk.length (jsSub (buf.length : ℚ) startByte))).length
        = sliceCount chunk.length (jsSub (buf.length : ℚ) startByte) := by
      simp [List.length_take]
      omega
    rw [hlen]

/-- C7 witness: the binary64 placement bound at a concrete canvas and
chunk (the truncation arm is the live one: the guard 2 + 4 ≤ 4 fails and
trunc(4 - 2) = 2 bytes are copied). -/
theorem c7_no_overflow_binary64_witness :
    (placeChunkJS (List.replicate 4 0) (2 : ℚ) [7, 7, 7, 7]).length =
      (List.replicate 4 (0 : ℕ)).length ∧
    (jsAdd (2 : ℚ) (([7, 7, 7, 7] : List ℕ).length : ℚ) ≤
        ((List.replicate 4 (0 : ℕ)).length : ℚ) →
      (jsToIntTrunc (2 : ℚ)).toNat + ([7, 7, 7, 7] : List ℕ).length ≤
        (List.replicate 4 (0 : ℕ)).length →
      placeChunkJS (List.replicate 4 0) (2 : ℚ) [7, 7, 7, 7] =
        (List.replicate 4 (0 : ℕ)).take (jsToIntTrunc (2 : ℚ)).toNat ++ [7, 7, 7, 7] ++
          (List.replicate 4 (0 : ℕ)).drop
            ((jsToIntTrunc (2 : ℚ)).toNat + ([7, 7, 7, 7] : List ℕ).length)) ∧
    (¬ jsAdd (2 : ℚ) (([7, 7, 7, 7] : List ℕ).length : ℚ) ≤
        ((List.replicate 4 (0 : ℕ)).length : ℚ) →
      (jsToIntTrunc (2 : ℚ)).toNat +
          sliceCount ([7, 7, 7, 7] : List ℕ).length
            (jsSub (((List.replicate 4 (0 : ℕ)).length : ℕ) : ℚ) (2 : ℚ)) ≤
        (List.replicate 4 (0 : ℕ)).length →
      placeChunkJS (List.replicate 4 0) (2 : ℚ) [7, 7, 7, 7] =
        (List.replicate 4 (0 : ℕ)).take (jsToIntTrunc (2 : ℚ)).toNat ++
          ([7, 7, 7, 7] : List ℕ).take
            (sliceCount ([7, 7, 7, 7] : List ℕ).length
              (jsSub (((List.replicate 4 (0 : ℕ)).length : ℕ) : ℚ) (2 : ℚ))) ++
          (List.replicate 4 (0 : ℕ)).drop ((jsToIntTrunc (2 : ℚ)).toNat +
            sliceCount ([7, 7, 7, 7] : List ℕ).length
              (jsSub (((List.replicate 4 (0 : ℕ)).length : ℕ) : ℚ) (2 : ℚ)))) :=
  c7_no_overflow_binary64 (List.replicate 4 0) 2 [7, 7, 7, 7]

end TtsApp
